import Mathlib

/-!
Verification development for the evmbench job-submission pipeline and local
job/session state management.

Strings from the source are modelled as Lean `String`s (a `String` is a list
of Unicode code points, matching JavaScript strings up to UTF-16 surrogate
details, which none of the modelled operations inspect). Browser `File`
objects are opaque to the modelled core, so the draft-state container is
parameterised over the type of file objects.
-/

namespace EvmBench

/-- Submission mode of the upload store: `type UploadMode = "files" | "github"`
(src/store/upload-store, part_002). -/
inductive UploadMode where
  | files
  | github
deriving DecidableEq, Repr

/-- The draft (upload-store) state: the fields of `UploadState` in
src/store/upload-store (part_002) minus the action closures, which are
modelled below as functions on this record. `α` is the opaque type of
browser `File` objects. -/
structure UploadState (α : Type) where
  mode : UploadMode
  files : Option (List α)
  packageName : Option String
  githubUrl : String
  fromGitHub : Bool
deriving DecidableEq, Repr

/-- The initial store state passed to `create` in part_002:
`mode: "files", files: null, packageName: null, githubUrl: "", fromGitHub: false`. -/
def initialUploadState (α : Type) : UploadState α :=
  { mode := UploadMode.files
    files := none
    packageName := none
    githubUrl := ""
    fromGitHub := false }

/-- Action `setMode: (mode) => set({ mode })` of part_002; zustand `set`
merges the partial object into the state, leaving other fields unchanged. -/
def setMode {α : Type} (m : UploadMode) (s : UploadState α) : UploadState α :=
  { s with mode := m }

/-- Action `setUpload: (files, packageName) => set({ files, packageName })`. -/
def setUpload {α : Type} (fs : Option (List α)) (pn : Option String)
    (s : UploadState α) : UploadState α :=
  { s with files := fs, packageName := pn }

/-- Action `setGitHubUrl: (url) => set({ githubUrl })`. -/
def setGitHubUrl {α : Type} (url : String) (s : UploadState α) : UploadState α :=
  { s with githubUrl := url }

/-- Action `setFromGitHub: (fromGitHub) => set({ fromGitHub })`. -/
def setFromGitHub {α : Type} (b : Bool) (s : UploadState α) : UploadState α :=
  { s with fromGitHub := b }

/-- Action `clearUpload: () => set({ files: null, packageName: null,
githubUrl: "", fromGitHub: false })` of part_002.  Note that the partial
object does not mention `mode`, so `mode` is retained. -/
def clearUpload {α : Type} (s : UploadState α) : UploadState α :=
  { s with files := none, packageName := none, githubUrl := "", fromGitHub := false }

/-- A job-history record as built at the `addRecentJob` call site in
src/frontend/src/app/page.tsx lines 132-137:
`{ job_id, label, created_at_ms, source: mode }`. -/
structure RecentJob where
  job_id : String
  label : String
  created_at_ms : Nat
  source : UploadMode
deriving DecidableEq, Repr

/-- Modelled from the spec: the implementation of `addRecentJob` lives in
`src/lib/recent-jobs`, which is not among the provided source files (only
its call sites in page.tsx are).  Per spec §4.5 `add(record)` inserts or
replaces at the front per the jobId-uniqueness invariant of §3 and
truncates to the cap; the cap value itself is left unspecified by the
spec (§9), so it is a parameter here.  In the frontend the store reads and
rewrites persistent storage itself; here the current list is explicit. -/
def addRecentJob (cap : Nat) (r : RecentJob) (jobs : List RecentJob) :
    List RecentJob :=
  (r :: jobs.filter (fun j => !(j.job_id == r.job_id))).take cap

/-- Modelled from the spec: `remove(jobId)` of the missing
`src/lib/recent-jobs` module removes the matching record if present and is
a no-op otherwise (spec §4.5). -/
def removeRecentJob (id : String) (jobs : List RecentJob) : List RecentJob :=
  jobs.filter (fun j => !(j.job_id == id))

/-- Modelled from the spec: `clear()` of the job-history store drops all
records (spec §4.5); in page.tsx this is `setRecentJobs([])`. -/
def clearRecentJobs : List RecentJob := []

/-- Line terminators of the source regex language (JavaScript): LF, CR,
U+2028 LINE SEPARATOR, U+2029 PARAGRAPH SEPARATOR.  The `.` atom of the
source pattern matches every character except these. -/
def isLineTerminator (c : Char) : Bool :=
  c == '\n' || c == '\r' || c == Char.ofNat 0x2028 || c == Char.ofNat 0x2029

/-- Characters removed by JavaScript `String.prototype.trim`: the ECMA-262
WhiteSpace code points (TAB, VT, FF, SP, NBSP, ZWNBSP and the Unicode
space-separator category) together with the line terminators. -/
def isJsWhitespace (c : Char) : Bool :=
  c == '\t' || c == '\n' || c == Char.ofNat 0x0B || c == Char.ofNat 0x0C ||
  c == '\r' || c == ' ' || c == Char.ofNat 0xA0 || c == Char.ofNat 0x1680 ||
  (Char.ofNat 0x2000 ≤ c && c ≤ Char.ofNat 0x200A) ||
  c == Char.ofNat 0x2028 || c == Char.ofNat 0x2029 || c == Char.ofNat 0x202F ||
  c == Char.ofNat 0x205F || c == Char.ofNat 0x3000 || c == Char.ofNat 0xFEFF

/-- JavaScript `String.prototype.trim` on the character-list view: drop
whitespace from both ends. -/
def jsTrim (l : List Char) : List Char :=
  ((l.dropWhile isJsWhitespace).reverse.dropWhile isJsWhitespace).reverse

/-- Consume an exact literal at the head of the input, returning the
remainder; `none` when the input does not start with the literal. -/
def eatLiteral : List Char → List Char → Option (List Char)
  | [], l => some l
  | _ :: _, [] => none
  | p :: ps, c :: cs => if c = p then eatLiteral ps cs else none

/-- Split a character list at every `'/'`; always returns at least one
(possibly empty) segment, and `n` slashes yield `n + 1` segments. -/
def splitOnSlash : List Char → List (List Char)
  | [] => [[]]
  | c :: cs =>
    match splitOnSlash cs with
    | [] => [[c]]
    | s :: ss => if c = '/' then [] :: s :: ss else (c :: s) :: ss

/-- Join segments back with `'/'` separators; left inverse of
`splitOnSlash`. -/
def joinSegs : List (List Char) → List Char
  | [] => []
  | [s] => s
  | s :: t :: ss => s ++ '/' :: joinSegs (t :: ss)

/-- Decide the part of the source pattern after `https?://github.com/`,
namely `[^/]+/[^/]+(/tree/[^/]+(/.*)?)?$`, on the slash-split remainder.
Because `[^/]` and the literal `/` atoms make every slash position of a
match forced, the pattern matches exactly when the remainder splits into
two non-empty segments, or into four or more segments whose third is
`tree`, whose fourth is non-empty, and whose remaining segments contain no
line terminator (the `.` atoms of the source regex cannot match one). -/
def matchSegs : List (List Char) → Bool
  | [owner, repo] => !owner.isEmpty && !repo.isEmpty
  | owner :: repo :: t :: ref :: more =>
      !owner.isEmpty && !repo.isEmpty && t == "tree".data && !ref.isEmpty &&
        more.all (fun seg => seg.all (fun c => !isLineTerminator c))
  | _ => false

/-- Decision procedure for the source pattern `GITHUB_URL_PATTERN`
`^https?:\/\/github\.com\/[^/]+\/[^/]+(\/tree\/[^/]+(\/.*)?)?$` of
part_003 line 14 and page.tsx line 35, under JavaScript regex semantics.
The `https?://github.com/` prefix is decided as an alternation of the two
expanded literals, which is equivalent: an input starting with
`https://github.com/` is caught by the first branch, and one starting with
`http://github.com/` fails the first branch at its fifth character
(`:` vs `s`) and is caught by the second. -/
def githubUrlPatternTest (l : List Char) : Bool :=
  match eatLiteral "https://github.com/".data l with
  | some rest => matchSegs (splitOnSlash rest)
  | none =>
    match eatLiteral "http://github.com/".data l with
    | some rest => matchSegs (splitOnSlash rest)
    | none => false

/-- The validator of page.tsx lines 78-80:
`GITHUB_URL_PATTERN.test(githubUrl.trim())`. -/
def isValidGitHubUrl (s : String) : Bool :=
  githubUrlPatternTest (jsTrim s.data)

/-- Grammar of the optional `[/tree/<ref>[/<subpath>]]` part of a
repository reference: either absent, or `/tree/` followed by a non-empty
slash-free ref and an optional `/`-introduced subpath free of line
terminators. -/
def SuffixGrammar (suffix : List Char) : Prop :=
  suffix = [] ∨
    ∃ ref rest : List Char,
      suffix = "/tree/".data ++ ref ++ rest ∧ ref ≠ [] ∧ '/' ∉ ref ∧
      (rest = [] ∨ ∃ sub : List Char, rest = '/' :: sub ∧
        ∀ c ∈ sub, isLineTerminator c = false)

/-- Grammar of the part of a reference after `https?://github.com/`:
non-empty slash-free owner and repo, then an optional tree suffix. -/
def TailGrammar (rest : List Char) : Prop :=
  ∃ owner repo suffix : List Char,
    rest = owner ++ '/' :: (repo ++ suffix) ∧
    owner ≠ [] ∧ '/' ∉ owner ∧ repo ≠ [] ∧ '/' ∉ repo ∧ SuffixGrammar suffix

/-- The full repository-reference grammar as worded in spec §4.2/§6:
`scheme://github.com/<owner>/<repo>[/tree/<ref>[/<subpath>]]` with scheme
`http` or `https`, owner, repo and ref non-empty and slash-free, and the
subpath free of line terminators (the `.` of the quoted source-language
pattern matches any character but a line terminator). -/
def MatchesGithubGrammar (l : List Char) : Prop :=
  ∃ scheme owner repo suffix : List Char,
    (scheme = "http".data ∨ scheme = "https".data) ∧
    l = scheme ++ "://github.com/".data ++ owner ++ '/' :: (repo ++ suffix) ∧
    owner ≠ [] ∧ '/' ∉ owner ∧ repo ≠ [] ∧ '/' ∉ repo ∧ SuffixGrammar suffix

/-- JavaScript `trim` at the `String` level, as used for `githubUrl.trim()`
and `openaiKey.trim()` in page.tsx. -/
def jsTrimString (s : String) : String :=
  ⟨jsTrim s.data⟩

/-- A source location of a finding, mirroring the entries of
`vuln.description` consumed in part_001 line 25-30: file, 1-based inclusive
line range, free-text explanation. -/
structure VulnLocation where
  file : String
  line_start : Nat
  line_end : Nat
  desc : String
deriving DecidableEq, Repr

/-- A finding as consumed by the exporter of part_001: id, title, severity
string, optional summary / impact / proof of concept / remediation, and a
list of locations.  Optional string fields model fields that may be
absent; JavaScript truthiness additionally treats an empty string as
absent, which `optSection` below reproduces. -/
structure Vulnerability where
  id : String
  title : String
  severity : String
  summary : Option String
  impact : Option String
  description : List VulnLocation
  proof_of_concept : Option String
  remediation : Option String
deriving DecidableEq, Repr

/-- JavaScript `toUpperCase` restricted to ASCII letters (`Char.toUpper`),
which coincides with the source for the ASCII severity values the backend
produces. -/
def jsToUpper (s : String) : String :=
  ⟨s.data.map Char.toUpper⟩

/-- An optional markdown section of part_001: `if (field) { heading, text,
"" }`, where a missing or empty string is falsy. -/
def optSection (heading : String) (o : Option String) : List String :=
  match o with
  | some s => if s == "" then [] else [heading, s, ""]
  | none => []

/-- The `**File:**` line pushed for each location in part_001 line 27. -/
def fileLine (loc : VulnLocation) : String :=
  "**File:** `" ++ loc.file ++ "` (lines " ++ toString loc.line_start ++
    "-" ++ toString loc.line_end ++ ")"

/-- The four lines pushed per location by the loop of part_001 lines 25-30. -/
def locLines (loc : VulnLocation) : List String :=
  ["", fileLine loc, "", loc.desc]

/-- The `lines` array built by `vulnerabilityToMarkdown` of part_001
lines 3-45, before the final `join("\n")`. -/
def vulnLines (v : Vulnerability) : List String :=
  ["## " ++ v.id ++ ": " ++ v.title, "",
    "**Severity:** " ++ jsToUpper v.severity, ""]
  ++ optSection "### Summary" v.summary
  ++ optSection "### Impact" v.impact
  ++ (if v.description.length > 0 then
        ["### Description"] ++ (v.description.map locLines).flatten ++ [""]
      else [])
  ++ optSection "### Proof of Concept" v.proof_of_concept
  ++ optSection "### Remediation" v.remediation

/-- JavaScript `Array.prototype.join("\n")`. -/
def joinLines : List String → String
  | [] => ""
  | [l] => l
  | l :: t :: ls => l ++ "\n" ++ joinLines (t :: ls)

/-- Function `vulnerabilityToMarkdown` of part_001 lines 3-47. -/
def vulnerabilityToMarkdown (v : Vulnerability) : String :=
  joinLines (vulnLines v)

/-- Function `generateVulnerabilityMarkdown` of part_001 lines 49-51. -/
def generateVulnerabilityMarkdown (v : Vulnerability) : String :=
  "# Vulnerability Report\n\n" ++ vulnerabilityToMarkdown v

/-- One step of the severity histogram `reduce` of part_001 lines 69-75:
increment the count of an existing key in place, or append a new key,
which reproduces JavaScript object insertion order (first appearance). -/
def bumpSeverity : List (String × Nat) → String → List (String × Nat)
  | [], k => [(k, 1)]
  | (k2, n) :: rest, k =>
    if k2 == k then (k2, n + 1) :: rest else (k2, n) :: bumpSeverity rest k

/-- The severity histogram of part_001 lines 69-75, as an association list
in insertion order of first appearance. -/
def severityTally (vs : List Vulnerability) : List (String × Nat) :=
  vs.foldl (fun acc v => bumpSeverity acc v.severity) []

/-- The header lines of the aggregate report of part_001 lines 57-84:
title, optional job line, total count, severity histogram, and the rule
that separates the header from the vulnerability sections. -/
def reportHeaderLines (vs : List Vulnerability) (jobId : Option String) :
    List String :=
  ["# Security Audit Report", ""]
  ++ (match jobId with
      | some j => if j == "" then [] else ["**Job ID:** " ++ j, ""]
      | none => [])
  ++ ["**Total Vulnerabilities:** " ++ toString vs.length, ""]
  ++ ["### Summary by Severity", ""]
  ++ (severityTally vs).map
      (fun p => "- **" ++ jsToUpper p.1 ++ ":** " ++ toString p.2)
  ++ ["", "---", ""]

/-- Function `generateAllVulnerabilitiesMarkdown` of part_001 lines 53-94:
header lines followed by one section per vulnerability in input order,
each closed by a horizontal rule. -/
def generateAllVulnerabilitiesMarkdown (vs : List Vulnerability)
    (jobId : Option String) : String :=
  joinLines (reportHeaderLines vs jobId
    ++ (vs.map (fun v => [vulnerabilityToMarkdown v, "---", ""])).flatten)

/-- The sanitized, 30-character-truncated title part of the single-export
filename of part_001 line 110:
`vuln.title.slice(0, 30).replace(/[^a-zA-Z0-9]/g, "-")`. -/
def sanitizedTitlePart (v : Vulnerability) : String :=
  ⟨(v.title.data.take 30).map
    (fun c => if c.isAlpha || c.isDigit then c else '-')⟩

/-- The filename used by `downloadVulnerability` of part_001 line 110:
the id verbatim, a dash, the sanitized truncated title, and `.md`. -/
def downloadVulnFilename (v : Vulnerability) : String :=
  v.id ++ "-" ++ sanitizedTitlePart v ++ ".md"

/-- The filename used by `downloadAllVulnerabilities` of part_001
lines 119-121: `audit-report-` plus the first eight characters of the job
id, or plain `audit-report.md` when the job id is absent or empty
(falsy). -/
def downloadAllFilename (jobId : Option String) : String :=
  match jobId with
  | some j =>
    if j == "" then "audit-report.md"
    else "audit-report-" ++ (⟨j.data.take 8⟩ : String) ++ ".md"
  | none => "audit-report.md"

/-- A network request the submission handler can issue: `startJob` with the
archive built from the selected files (files mode) or `startJobFromGitHub`
with the trimmed URL (repository mode).  The archive step
(`createZipFromFiles`, whose module is not among the provided sources) is
modelled as carrying its inputs, the selected files and the inferred name;
no claim depends on the archive encoding. -/
inductive NetworkCall (α : Type) where
  | startJob (files : List α) (name : String) (model : String) (key : String)
  | startJobFromGitHub (url : String) (model : String) (key : String)
deriving DecidableEq

/-- The observable outcome of one `handleSubmit` run of page.tsx
lines 104-145: the resulting draft state, job history, the network calls
issued, the final `submitError` value, and the results route navigated to
(if any). -/
structure SubmitOutcome (α : Type) where
  state : UploadState α
  jobs : List RecentJob
  calls : List (NetworkCall α)
  submitError : Option String
  navigatedTo : Option String
deriving DecidableEq

/-- The handler `handleSubmit` of page.tsx lines 104-145 as a function of
the draft state, the current history and the environment.  `backend` is
the single-attempt outcome of the awaited submission call: `Except.ok`
with the confirmed job id, or `Except.error` with the failure message
(`error.message`, or the generic "Upload failed" the caller substitutes
for a non-Error throw).  `selectedLabel` is the memoized label of
lines 67-76, `now` is `Date.now()`, and `prevError` is the `submitError`
state on entry (the early returns leave it untouched; the submit path
clears it before the call).  The `cap` parameter is the history cap of the
spec-modelled `addRecentJob`. -/
def handleSubmit {α : Type} (isAuthorized : Bool)
    (backend : Except String String) (now cap : Nat)
    (selectedLabel : Option String) (openaiKey model : String)
    (prevError : Option String) (s : UploadState α) (jobs : List RecentJob) :
    SubmitOutcome α :=
  if !isAuthorized then
    { state := s, jobs := jobs, calls := [],
      submitError := some "Authorize with GitHub to start analysis.",
      navigatedTo := none }
  else if s.mode = UploadMode.files ∧
      (match s.files with | none => true | some fs => fs.isEmpty) = true then
    { state := s, jobs := jobs, calls := [], submitError := prevError,
      navigatedTo := none }
  else if s.mode = UploadMode.github ∧
      isValidGitHubUrl s.githubUrl = false then
    { state := s, jobs := jobs, calls := [], submitError := prevError,
      navigatedTo := none }
  else
    let name := selectedLabel.getD "files"
    let trimmedKey := jsTrimString openaiKey
    let call : NetworkCall α :=
      match s.mode with
      | UploadMode.github =>
        NetworkCall.startJobFromGitHub (jsTrimString s.githubUrl) model
          trimmedKey
      | UploadMode.files =>
        NetworkCall.startJob (s.files.getD []) name model trimmedKey
    match backend with
    | Except.ok jobId =>
      { state := setFromGitHub (s.mode == UploadMode.github) s
        jobs := addRecentJob cap ⟨jobId, name, now, s.mode⟩ jobs
        calls := [call]
        submitError := none
        navigatedTo := some jobId }
    | Except.error msg =>
      { state := s, jobs := jobs, calls := [call],
        submitError := some msg, navigatedTo := none }

/-- The submission-eligibility gate `canSubmit` of page.tsx lines 82-88. -/
def canSubmit {α : Type} (isSubmitting isAuthLoading isAuthorized : Bool)
    (s : UploadState α) : Bool :=
  if isSubmitting || isAuthLoading || !isAuthorized then false
  else
    match s.mode with
    | UploadMode.files =>
      match s.files with
      | none => false
      | some fs => !fs.isEmpty
    | UploadMode.github => isValidGitHubUrl s.githubUrl

/-- The environment of one orchestration-launcher run (part_000): whether
all required environment variables are set (the `:?` guards of lines
15-21), the optional `EVM_BENCH_PI_TIMEOUT_SECONDS` value, the submission
directory path, the wrapped agent's own exit status (including a forcible
KILL on timeout), and whether each audit output file exists non-empty
after the run (`[[ -s ... ]]`, line 71). -/
structure LauncherEnv where
  requiredPresent : Bool
  timeoutVar : Option String
  submissionDir : String
  agentExitCode : Nat
  auditJsonNonEmpty : Bool
  auditMdNonEmpty : Bool
deriving DecidableEq, Repr

/-- The observable result of a launcher run: process exit status, error
stream, and the wall-clock timeout in effect for the agent (absent when
the run aborts before launching the agent). -/
structure LauncherResult where
  exitCode : Nat
  stderr : List String
  timeoutUsed : Option Nat
deriving DecidableEq, Repr

/-- The bash test `[[ "$t" =~ ^[0-9]+$ ]]` of part_000 line 27: a
non-empty string of ASCII decimal digits. -/
def isDigitString (s : String) : Bool :=
  !s.data.isEmpty && s.data.all Char.isDigit

/-- Decimal value of a digit string. -/
def digitsToNat (s : String) : Nat :=
  s.data.foldl (fun acc c => acc * 10 + (c.toNat - 48)) 0

/-- The effective `TIMEOUT_SECONDS` of part_000 line 26:
`"${EVM_BENCH_PI_TIMEOUT_SECONDS:-10800}"` substitutes the default when
the variable is unset or empty. -/
def effectiveTimeoutVar (env : LauncherEnv) : String :=
  match env.timeoutVar with
  | none => "10800"
  | some v => if v == "" then "10800" else v

/-- The orchestration launcher of part_000 as a function of its
environment.  A missing required variable aborts with status 1 (bash
`:?`); a non-digit timeout value exits 2 with a diagnostic (lines 27-30);
the agent is then run under `timeout --signal=KILL` with its exit status
discarded (`|| true`, line 68); finally, if neither `audit.json` nor
`audit.md` exists non-empty, the launcher exits 2 naming both files on
stderr (lines 71-74), and otherwise exits 0. -/
def runLauncher (env : LauncherEnv) : LauncherResult :=
  if !env.requiredPresent then
    { exitCode := 1, stderr := ["missing required environment variable"],
      timeoutUsed := none }
  else
    let t := effectiveTimeoutVar env
    if !(isDigitString t) then
      { exitCode := 2,
        stderr := ["invalid EVM_BENCH_PI_TIMEOUT_SECONDS=" ++ t],
        timeoutUsed := none }
    else if !env.auditJsonNonEmpty && !env.auditMdNonEmpty then
      { exitCode := 2,
        stderr := ["missing expected output: " ++ env.submissionDir ++
          "/audit.json or audit.md"],
        timeoutUsed := some (digitsToNat t) }
    else
      { exitCode := 0, stderr := [], timeoutUsed := some (digitsToNat t) }

theorem eatLiteral_eq_some (p : List Char) :
    ∀ l r : List Char, eatLiteral p l = some r ↔ l = p ++ r := by
  induction p with
  | nil =>
    intro l r
    simp [eatLiteral, eq_comm]
  | cons x xs ih =>
    intro l r
    cases l with
    | nil => simp [eatLiteral]
    | cons c cs =>
      by_cases hc : c = x
      · subst hc
        simp [eatLiteral, ih]
      · simp [eatLiteral, hc, Ne.symm hc]

theorem splitOnSlash_ne_nil (l : List Char) : splitOnSlash l ≠ [] := by
  cases l with
  | nil => simp [splitOnSlash]
  | cons c cs =>
    unfold splitOnSlash
    cases splitOnSlash cs with
    | nil => simp
    | cons s ss =>
      by_cases hc : c = '/' <;> simp [hc]

theorem joinSegs_splitOnSlash (l : List Char) :
    joinSegs (splitOnSlash l) = l := by
  induction l with
  | nil => rfl
  | cons c cs ih =>
    cases hss : splitOnSlash cs with
    | nil => exact absurd hss (splitOnSlash_ne_nil cs)
    | cons s ss =>
      rw [hss] at ih
      by_cases hc : c = '/'
      · subst hc
        have hred : splitOnSlash ('/' :: cs) = [] :: s :: ss := by
          simp [splitOnSlash, hss]
        rw [hred]
        show ([] : List Char) ++ '/' :: joinSegs (s :: ss) = '/' :: cs
        simp [ih]
      · have hred : splitOnSlash (c :: cs) = (c :: s) :: ss := by
          simp [splitOnSlash, hss, hc]
        rw [hred]
        cases ss with
        | nil =>
          show c :: s = c :: cs
          simpa [joinSegs] using ih
        | cons t ts =>
          show (c :: s) ++ '/' :: joinSegs (t :: ts) = c :: cs
          rw [List.cons_append]
          have h2 : s ++ '/' :: joinSegs (t :: ts) = cs := ih
          rw [h2]

theorem splitOnSlash_no_slash (l : List Char) :
    ∀ seg ∈ splitOnSlash l, '/' ∉ seg := by
  induction l with
  | nil =>
    intro seg hseg
    simp [splitOnSlash] at hseg
    simp [hseg]
  | cons c cs ih =>
    intro seg hseg
    rcases hs : splitOnSlash cs with _ | ⟨s, ss⟩
    · exact absurd hs (splitOnSlash_ne_nil cs)
    · by_cases hc : c = '/'
      · have hred : splitOnSlash (c :: cs) = [] :: s :: ss := by
          simp [splitOnSlash, hs, hc]
        rw [hred] at hseg
        rcases List.mem_cons.mp hseg with h | h
        · simp [h]
        · exact ih seg (hs ▸ h)
      · have hred : splitOnSlash (c :: cs) = (c :: s) :: ss := by
          simp [splitOnSlash, hs, hc]
        rw [hred] at hseg
        rcases List.mem_cons.mp hseg with h | h
        · subst h
          intro hmem
          rcases List.mem_cons.mp hmem with h | hmem
          · exact hc h.symm
          · exact ih s (hs ▸ List.mem_cons_self s ss) hmem
        · exact ih seg (hs ▸ List.mem_cons_of_mem s h)

theorem mem_joinSegs_cases (segs : List (List Char)) (c : Char)
    (h : c ∈ joinSegs segs) : (∃ seg ∈ segs, c ∈ seg) ∨ c = '/' := by
  induction segs with
  | nil => simp [joinSegs] at h
  | cons s ss ih =>
    cases ss with
    | nil =>
      left
      exact ⟨s, List.mem_cons_self s [], by simpa [joinSegs] using h⟩
    | cons t ts =>
      rw [show joinSegs (s :: t :: ts) = s ++ '/' :: joinSegs (t :: ts) from rfl]
        at h
      rcases List.mem_append.mp h with h | h
      · exact Or.inl ⟨s, List.mem_cons_self s _, h⟩
      · rcases List.mem_cons.mp h with h | h
        · exact Or.inr h
        · rcases ih h with ⟨seg, hseg, hc⟩ | h
          · exact Or.inl ⟨seg, List.mem_cons_of_mem s hseg, hc⟩
          · exact Or.inr h

theorem splitOnSlash_cons (c : Char) (cs : List Char) :
    splitOnSlash (c :: cs) =
      match splitOnSlash cs with
      | [] => [[c]]
      | s :: ss => if c = '/' then [] :: s :: ss else (c :: s) :: ss := rfl

theorem splitOnSlash_append (a b : List Char) (ha : '/' ∉ a) :
    splitOnSlash (a ++ '/' :: b) = a :: splitOnSlash b := by
  induction a with
  | nil =>
    rw [List.nil_append]
    rcases hs : splitOnSlash b with _ | ⟨s, ss⟩
    · exact absurd hs (splitOnSlash_ne_nil b)
    · rw [splitOnSlash_cons, hs]
      simp
  | cons c a' ih =>
    have hc : c ≠ '/' := fun h => ha (h ▸ List.mem_cons_self c a')
    have ha' : '/' ∉ a' := fun h => ha (List.mem_cons_of_mem c h)
    rw [List.cons_append, splitOnSlash_cons, ih ha']
    simp [hc]

theorem splitOnSlash_of_no_slash (a : List Char) (ha : '/' ∉ a) :
    splitOnSlash a = [a] := by
  induction a with
  | nil => rfl
  | cons c a' ih =>
    have hc : c ≠ '/' := fun h => ha (h ▸ List.mem_cons_self c a')
    have ha' : '/' ∉ a' := fun h => ha (List.mem_cons_of_mem c h)
    rw [splitOnSlash_cons, ih ha']
    simp [hc]

theorem mem_joinSegs_of_mem (segs : List (List Char)) (seg : List Char)
    (c : Char) (hseg : seg ∈ segs) (hc : c ∈ seg) : c ∈ joinSegs segs := by
  induction segs with
  | nil => simp at hseg
  | cons s ss ih =>
    cases ss with
    | nil =>
      rcases List.mem_cons.mp hseg with h | h
      · subst h
        simpa [joinSegs] using hc
      · simp at h
    | cons t ts =>
      rw [show joinSegs (s :: t :: ts) = s ++ '/' :: joinSegs (t :: ts) from rfl]
      rcases List.mem_cons.mp hseg with h | h
      · subst h
        exact List.mem_append.mpr (Or.inl hc)
      · exact List.mem_append.mpr (Or.inr (List.mem_cons_of_mem _ (ih h)))

theorem mem_of_mem_splitOnSlash (l seg : List Char) (c : Char)
    (hseg : seg ∈ splitOnSlash l) (hc : c ∈ seg) : c ∈ l := by
  have h := mem_joinSegs_of_mem (splitOnSlash l) seg c hseg hc
  rwa [joinSegs_splitOnSlash] at h

theorem matchSegs_split_iff (rest : List Char) :
    matchSegs (splitOnSlash rest) = true ↔ TailGrammar rest := by
  constructor
  · intro h
    have hns := splitOnSlash_no_slash rest
    have hj := joinSegs_splitOnSlash rest
    rcases hsegs : splitOnSlash rest with _ | ⟨o, segs1⟩
    · exact absurd hsegs (splitOnSlash_ne_nil rest)
    rw [hsegs] at h hns hj
    rcases segs1 with _ | ⟨r, segs2⟩
    · simp [matchSegs] at h
    rcases segs2 with _ | ⟨t, segs3⟩
    · simp only [matchSegs] at h
      simp only [Bool.and_eq_true, Bool.not_eq_true', List.isEmpty_eq_false] at h
      obtain ⟨ho, hr⟩ := h
      refine ⟨o, r, [], ?_, ho, hns o (by simp), hr, hns r (by simp),
        Or.inl rfl⟩
      rw [List.append_nil]
      exact hj.symm
    rcases segs3 with _ | ⟨ref, more⟩
    · simp [matchSegs] at h
    simp only [matchSegs] at h
    simp only [Bool.and_eq_true, Bool.not_eq_true', List.isEmpty_eq_false,
      beq_iff_eq, List.all_eq_true] at h
    obtain ⟨⟨⟨⟨ho, hr⟩, ht⟩, href⟩, hmore⟩ := h
    subst ht
    cases more with
    | nil =>
      refine ⟨o, r, "/tree/".data ++ ref, hj.symm, ho, hns o (by simp), hr,
        hns r (by simp),
        Or.inr ⟨ref, [], by rw [List.append_nil], href, hns ref (by simp),
          Or.inl rfl⟩⟩
    | cons m ms =>
      refine ⟨o, r, "/tree/".data ++ (ref ++ '/' :: joinSegs (m :: ms)),
        hj.symm, ho, hns o (by simp), hr, hns r (by simp),
        Or.inr ⟨ref, '/' :: joinSegs (m :: ms), rfl, href,
          hns ref (by simp), Or.inr ⟨joinSegs (m :: ms), rfl, ?_⟩⟩⟩
      intro c hc
      rcases mem_joinSegs_cases (m :: ms) c hc with ⟨seg, hseg, hcs⟩ | hceq
      · simpa using hmore seg hseg c hcs
      · subst hceq
        decide
  · rintro ⟨o, r, suffix, hrest, ho, hos, hr, hrs, hsuf⟩
    subst hrest
    rw [splitOnSlash_append o _ hos]
    have htree : ('/' : Char) ∉ "tree".data := by decide
    rcases hsuf with hnil | ⟨ref, rest2, hsufeq, href, hrefs, hrest2⟩
    · subst hnil
      rw [List.append_nil, splitOnSlash_of_no_slash r hrs]
      simp [matchSegs, ho, hr]
    · rcases hrest2 with hnil | ⟨sub, hsubeq, hsub⟩
      · subst hnil
        rw [List.append_nil] at hsufeq
        subst hsufeq
        rw [show r ++ ("/tree/".data ++ ref) =
            r ++ '/' :: ("tree".data ++ '/' :: ref) from rfl,
          splitOnSlash_append r _ hrs,
          splitOnSlash_append _ _ htree,
          splitOnSlash_of_no_slash ref hrefs]
        simp [matchSegs, ho, hr, href]
      · subst hsubeq
        subst hsufeq
        rw [show r ++ ("/tree/".data ++ ref ++ '/' :: sub) =
            r ++ '/' :: ("tree".data ++ '/' :: (ref ++ '/' :: sub)) from rfl,
          splitOnSlash_append r _ hrs,
          splitOnSlash_append _ _ htree,
          splitOnSlash_append ref _ hrefs]
        simp only [matchSegs]
        simp only [Bool.and_eq_true, Bool.not_eq_true', List.isEmpty_eq_false,
          beq_iff_eq, List.all_eq_true]
        refine ⟨⟨⟨⟨ho, hr⟩, trivial⟩, href⟩, ?_⟩
        intro seg hseg c hc
        simpa using hsub c (mem_of_mem_splitOnSlash sub seg c hseg hc)

theorem githubUrlPatternTest_iff (l : List Char) :
    githubUrlPatternTest l = true ↔ MatchesGithubGrammar l := by
  constructor
  · intro h
    unfold githubUrlPatternTest at h
    rcases he : eatLiteral "https://github.com/".data l with _ | rest
    · rw [he] at h
      rcases he2 : eatLiteral "http://github.com/".data l with _ | rest
      · rw [he2] at h
        simp at h
      · rw [he2] at h
        simp only [] at h
        have hl : l = "http://github.com/".data ++ rest :=
          (eatLiteral_eq_some _ _ _).mp he2
        obtain ⟨o, rp, suffix, hrest, ho, hos, hr, hrps, hsuf⟩ :=
          (matchSegs_split_iff rest).mp h
        refine ⟨"http".data, o, rp, suffix, Or.inl rfl, ?_, ho, hos, hr,
          hrps, hsuf⟩
        rw [hl, hrest]
        rfl
    · rw [he] at h
      simp only [] at h
      have hl : l = "https://github.com/".data ++ rest :=
        (eatLiteral_eq_some _ _ _).mp he
      obtain ⟨o, rp, suffix, hrest, ho, hos, hr, hrps, hsuf⟩ :=
        (matchSegs_split_iff rest).mp h
      refine ⟨"https".data, o, rp, suffix, Or.inr rfl, ?_, ho, hos, hr,
        hrps, hsuf⟩
      rw [hl, hrest]
      rfl
  · rintro ⟨scheme, o, rp, suffix, hscheme, hl, ho, hos, hr, hrs, hsuf⟩
    have hm := (matchSegs_split_iff (o ++ '/' :: (rp ++ suffix))).mpr
      ⟨o, rp, suffix, rfl, ho, hos, hr, hrs, hsuf⟩
    unfold githubUrlPatternTest
    rcases hscheme with rfl | rfl
    · have he : eatLiteral "https://github.com/".data l = none := by
        rw [hl]
        rfl
      have he2 : eatLiteral "http://github.com/".data l =
          some (o ++ '/' :: (rp ++ suffix)) :=
        (eatLiteral_eq_some _ _ _).mpr (by rw [hl]; exact rfl)
      rw [he, he2]
      exact hm
    · have he : eatLiteral "https://github.com/".data l =
          some (o ++ '/' :: (rp ++ suffix)) :=
        (eatLiteral_eq_some _ _ _).mpr (by rw [hl]; exact rfl)
      rw [he]
      exact hm

theorem jsTrim_pad (ws l ws2 : List Char)
    (h1 : ∀ c ∈ ws, isJsWhitespace c = true)
    (h2 : ∀ c ∈ ws2, isJsWhitespace c = true) :
    jsTrim (ws ++ l ++ ws2) = jsTrim l := by
  unfold jsTrim
  rw [List.append_assoc, List.dropWhile_append_of_pos h1,
    List.dropWhile_append]
  by_cases hemp : (l.dropWhile isJsWhitespace).isEmpty
  · rw [if_pos hemp]
    have hl : l.dropWhile isJsWhitespace = [] := by simpa using hemp
    have hw : ws2.dropWhile isJsWhitespace = [] :=
      List.dropWhile_eq_nil_iff.mpr h2
    rw [hl, hw]
  · rw [if_neg hemp, List.reverse_append,
      List.dropWhile_append_of_pos (fun a ha => h2 a (List.mem_reverse.mp ha))]

theorem jsTrim_eq_nil_of_all_ws (l : List Char)
    (h : ∀ c ∈ l, isJsWhitespace c = true) : jsTrim l = [] := by
  unfold jsTrim
  rw [List.dropWhile_eq_nil_iff.mpr h]
  rfl

/-- Claim C3: for every string s, the remote-repository reference validator
of page.tsx returns true iff the trimmed s matches the anchored source
grammar `https?://github.com/[^/]+/[^/]+(/tree/[^/]+(/.*)?)?` (rendered as
the structural predicate `MatchesGithubGrammar`), prepending or appending
whitespace never changes the result, and the empty string and every
whitespace-only string are invalid. -/
theorem isValidGitHubUrl_spec :
    (∀ s : String, isValidGitHubUrl s = true ↔
      MatchesGithubGrammar (jsTrim s.data)) ∧
    (∀ pre s post : String, (∀ c ∈ pre.data, isJsWhitespace c = true) →
      (∀ c ∈ post.data, isJsWhitespace c = true) →
      isValidGitHubUrl (pre ++ s ++ post) = isValidGitHubUrl s) ∧
    isValidGitHubUrl "" = false ∧
    (∀ s : String, (∀ c ∈ s.data, isJsWhitespace c = true) →
      isValidGitHubUrl s = false) := by
  refine ⟨fun s => githubUrlPatternTest_iff (jsTrim s.data), ?_, rfl, ?_⟩
  · intro pre s post h1 h2
    unfold isValidGitHubUrl
    rw [show (pre ++ s ++ post).data = pre.data ++ s.data ++ post.data by
      simp, jsTrim_pad pre.data s.data post.data h1 h2]
  · intro s h
    unfold isValidGitHubUrl
    rw [jsTrim_eq_nil_of_all_ws s.data h]
    rfl

/-- Witness for C3 at concrete strings: surrounding a valid reference with
whitespace does not change the verdict, the trimmed valid reference
matches the grammar, and a whitespace-only string is invalid. -/
theorem isValidGitHubUrl_spec_witness :
    isValidGitHubUrl (" " ++ "https://github.com/acme/vault" ++ "\t") =
      isValidGitHubUrl "https://github.com/acme/vault" ∧
    MatchesGithubGrammar (jsTrim "https://github.com/acme/vault".data) ∧
    isValidGitHubUrl "  " = false := by
  refine ⟨?_, ?_, ?_⟩
  · exact isValidGitHubUrl_spec.2.1 " " "https://github.com/acme/vault" "\t"
      (by decide) (by decide)
  · exact (isValidGitHubUrl_spec.1 "https://github.com/acme/vault").mp
      (by decide)
  · exact isValidGitHubUrl_spec.2.2.2 "  " (by decide)

/-- Claim C10: for every draft state, `clearUpload` resets `files`,
`packageName`, `githubUrl` and `fromGitHub` to their session-start values
while leaving `mode` unchanged; consequently the cleared state equals the
session-start empty draft exactly when the mode has not been switched away
from the initial `files` mode, and after a mode switch it differs from the
initial draft exactly in the `mode` field. -/
theorem clearUpload_resets_all_but_mode {α : Type} :
    (∀ s : UploadState α,
      clearUpload s = { initialUploadState α with mode := s.mode }) ∧
    (∀ s : UploadState α,
      clearUpload s = initialUploadState α ↔ s.mode = UploadMode.files) ∧
    (∀ s : UploadState α, ∀ m : UploadMode,
      clearUpload (setMode m s) = { initialUploadState α with mode := m }) := by
  refine ⟨fun s => rfl, fun s => ?_, fun s m => rfl⟩
  constructor
  · intro h
    have := congrArg (UploadState.mode) h
    simpa [clearUpload, initialUploadState] using this
  · intro h
    simp [clearUpload, initialUploadState, h]

/-- Witness for C10 at a concrete state: clearing after switching to
`github` mode yields the initial draft with only the mode changed, and is
not equal to the initial draft. -/
theorem clearUpload_resets_witness :
    clearUpload (setMode UploadMode.github
        (setGitHubUrl "https://github.com/acme/vault"
          (initialUploadState String))) =
      { initialUploadState String with mode := UploadMode.github } ∧
    (clearUpload (setMode UploadMode.github
        (setGitHubUrl "https://github.com/acme/vault"
          (initialUploadState String))) =
      initialUploadState String ↔
        (setMode UploadMode.github
          (setGitHubUrl "https://github.com/acme/vault"
            (initialUploadState String))).mode = UploadMode.files) :=
  ⟨(clearUpload_resets_all_but_mode.1 _),
    clearUpload_resets_all_but_mode.2.1 _⟩

/-- Claim C2: job-history invariants.  Adding a record never produces two
records with the same `job_id` (an existing record with the same id is
replaced and moved to the front), the length never exceeds the cap, the
retained records are an initial (most-recent-first) segment of the
de-duplicated cons so eviction removes oldest entries first, removing an
absent id is a no-op, and clear yields the empty list. -/
theorem recentJobs_invariants (cap : Nat) (r : RecentJob)
    (jobs : List RecentJob)
    (hnd : (jobs.map RecentJob.job_id).Nodup) :
    ((addRecentJob cap r jobs).map RecentJob.job_id).Nodup ∧
    (addRecentJob cap r jobs).length ≤ cap ∧
    (0 < cap → (addRecentJob cap r jobs).head? = some r) ∧
    (addRecentJob cap r jobs) <+:
      (r :: jobs.filter (fun j => !(j.job_id == r.job_id))) ∧
    (∀ id : String, (∀ j ∈ jobs, j.job_id ≠ id) →
      removeRecentJob id jobs = jobs) ∧
    clearRecentJobs = [] := by
  refine ⟨?_, ?_, ?_, List.take_prefix _ _, ?_, rfl⟩
  · have hsub : ((addRecentJob cap r jobs).map RecentJob.job_id).Sublist
        ((r :: jobs.filter (fun j => !(j.job_id == r.job_id))).map
          RecentJob.job_id) :=
      ((List.take_sublist _ _).map _)
    refine hsub.nodup ?_
    rw [List.map_cons, List.nodup_cons]
    constructor
    · intro hmem
      rcases List.mem_map.mp hmem with ⟨j, hj, hid⟩
      have := (List.mem_filter.mp hj).2
      simp only [Bool.not_eq_true', beq_eq_false_iff_ne, ne_eq] at this
      exact this hid
    · exact hnd.sublist ((List.filter_sublist _).map _)
  · simp [addRecentJob]
  · intro hcap
    unfold addRecentJob
    cases cap with
    | zero => exact absurd hcap (by simp)
    | succ n => simp
  · intro id h
    unfold removeRecentJob
    refine List.filter_eq_self.mpr ?_
    intro j hj
    simp only [Bool.not_eq_true', beq_eq_false_iff_ne, ne_eq]
    exact h j hj

/-- Witness for C2 at a concrete history and record: adding a record whose
id already exists to a two-element nodup history keeps the invariants. -/
theorem recentJobs_invariants_witness :
    (([⟨"a", "x", 0, UploadMode.files⟩,
       ⟨"b", "y", 1, UploadMode.github⟩] :
        List RecentJob).map RecentJob.job_id).Nodup ∧
    ((addRecentJob 2 ⟨"a", "z", 2, UploadMode.github⟩
        [⟨"a", "x", 0, UploadMode.files⟩,
         ⟨"b", "y", 1, UploadMode.github⟩]).map RecentJob.job_id).Nodup := by
  have h := recentJobs_invariants 2 ⟨"a", "z", 2, UploadMode.github⟩
    [⟨"a", "x", 0, UploadMode.files⟩, ⟨"b", "y", 1, UploadMode.github⟩]
    (by decide)
  exact ⟨by decide, h.1⟩

/-- Claim C6: the orchestration launcher exits with status 2 when the
optional timeout variable is set to a value that is not a non-negative
integer (a non-empty string failing the `^[0-9]+$` test; an empty value
falls back to the default like an unset one), uses the default 10800
seconds when the variable is unset, exits with status 2 when after the
agent run neither `submission/audit.json` nor `submission/audit.md` exists
non-empty while printing a diagnostic naming both filenames on stderr,
and otherwise exits with status 0 regardless of the wrapped agent's own
exit status. -/
theorem runLauncher_spec :
    (∀ (env : LauncherEnv) (v : String), env.requiredPresent = true →
      env.timeoutVar = some v → v ≠ "" → isDigitString v = false →
      (runLauncher env).exitCode = 2) ∧
    (∀ env : LauncherEnv, env.requiredPresent = true →
      env.timeoutVar = none → (runLauncher env).timeoutUsed = some 10800) ∧
    (∀ env : LauncherEnv, env.requiredPresent = true →
      isDigitString (effectiveTimeoutVar env) = true →
      env.auditJsonNonEmpty = false → env.auditMdNonEmpty = false →
      (runLauncher env).exitCode = 2 ∧
      ∃ msg ∈ (runLauncher env).stderr,
        "audit.json".data <:+: msg.data ∧ "audit.md".data <:+: msg.data) ∧
    (∀ env : LauncherEnv, env.requiredPresent = true →
      isDigitString (effectiveTimeoutVar env) = true →
      (env.auditJsonNonEmpty = true ∨ env.auditMdNonEmpty = true) →
      (runLauncher env).exitCode = 0) ∧
    (∀ (env : LauncherEnv) (e1 e2 : Nat),
      runLauncher { env with agentExitCode := e1 } =
        runLauncher { env with agentExitCode := e2 }) := by
  refine ⟨?_, ?_, ?_, ?_, fun env e1 e2 => rfl⟩
  · intro env v hreq htv hne hdig
    have heff : effectiveTimeoutVar env = v := by
      simp [effectiveTimeoutVar, htv, hne]
    simp [runLauncher, hreq, heff, hdig]
  · intro env hreq htv
    have heff : effectiveTimeoutVar env = "10800" := by
      simp [effectiveTimeoutVar, htv]
    by_cases hj : env.auditJsonNonEmpty <;> by_cases hm : env.auditMdNonEmpty <;>
      simp [runLauncher, hreq, heff, hj, hm, isDigitString, digitsToNat]
  · intro env hreq hdig hj hm
    have hred : runLauncher env =
        { exitCode := 2,
          stderr := ["missing expected output: " ++ env.submissionDir ++
            "/audit.json or audit.md"],
          timeoutUsed := some (digitsToNat (effectiveTimeoutVar env)) } := by
      simp [runLauncher, hreq, hdig, hj, hm]
    rw [hred]
    refine ⟨rfl, "missing expected output: " ++ env.submissionDir ++
      "/audit.json or audit.md", by simp, ?_, ?_⟩
    · have h1 : "audit.json".data <:+: "/audit.json or audit.md".data := by
        decide
      have h2 : "/audit.json or audit.md".data <:+
          ("missing expected output: " ++ env.submissionDir ++
            "/audit.json or audit.md").data := by
        refine ⟨("missing expected output: " ++ env.submissionDir).data, ?_⟩
        simp
      exact h1.trans h2.isInfix
    · have h1 : "audit.md".data <:+: "/audit.json or audit.md".data := by
        decide
      have h2 : "/audit.json or audit.md".data <:+
          ("missing expected output: " ++ env.submissionDir ++
            "/audit.json or audit.md").data := by
        refine ⟨("missing expected output: " ++ env.submissionDir).data, ?_⟩
        simp
      exact h1.trans h2.isInfix
  · intro env hreq hdig hor
    rcases hor with h | h <;> simp [runLauncher, hreq, hdig, h]

/-- Witness for C6 at concrete environments: a non-digit timeout value
exits 2; an unset timeout defaults to 10800; a run that produced only a
non-empty `audit.md` exits 0 even though the agent was killed (exit 137);
a run that produced nothing exits 2 with a diagnostic naming both files. -/
theorem runLauncher_spec_witness :
    (runLauncher ⟨true, some "soon", "submission", 0, false, false⟩).exitCode
        = 2 ∧
    (runLauncher ⟨true, none, "submission", 137, false, true⟩).timeoutUsed
        = some 10800 ∧
    (runLauncher ⟨true, none, "submission", 137, false, true⟩).exitCode
        = 0 ∧
    ((runLauncher ⟨true, none, "submission", 0, false, false⟩).exitCode
        = 2 ∧
      ∃ msg ∈ (runLauncher ⟨true, none, "submission", 0, false,
          false⟩).stderr,
        "audit.json".data <:+: msg.data ∧ "audit.md".data <:+: msg.data) :=
  ⟨runLauncher_spec.1 _ "soon" rfl rfl (by decide) (by decide),
    runLauncher_spec.2.1 _ rfl rfl,
    runLauncher_spec.2.2.2.1 _ rfl (by decide) (Or.inr rfl),
    runLauncher_spec.2.2.1 _ rfl (by decide) rfl rfl⟩

/-- Counterexample to claim C9: the single-export filename embeds the
vulnerability id verbatim, without sanitization, so for the id `V/1` the
generated filename contains `/`, which is neither an ASCII alphanumeric
character, nor the `-` the sanitizer substitutes, nor the `.` of the
`.md` suffix: no restricted character set covers every filename. -/
theorem downloadVulnFilename_id_not_sanitized :
    downloadVulnFilename ⟨"V/1", "T", "high", none, none, [], none, none⟩ =
      "V/1-T.md" ∧
    '/' ∈ "V/1-T.md".data ∧
    ('/'.isAlpha || '/'.isDigit || '/' == '-' || '/' == '.') = false := by
  refine ⟨by decide, by decide, by decide⟩

/-- Claim C9 amended: the single-export filename is the vulnerability id
verbatim, a dash, the title truncated to 30 characters with every
character outside ASCII `[a-zA-Z0-9]` replaced by `-` (so the
title-derived portion is sanitized to a restricted character set), and the
`.md` suffix; the aggregate-export filename is derived from the job
identifier (its first eight characters), or is the fixed
`audit-report.md` when the job identifier is absent or empty. -/
theorem downloadFilenames_spec :
    (∀ v : Vulnerability,
      downloadVulnFilename v = v.id ++ "-" ++ sanitizedTitlePart v ++ ".md" ∧
      (sanitizedTitlePart v).data.length ≤ 30 ∧
      ∀ c ∈ (sanitizedTitlePart v).data,
        (c.isAlpha || c.isDigit) = true ∨ c = '-') ∧
    (∀ j : String, j ≠ "" →
      downloadAllFilename (some j) =
        "audit-report-" ++ (⟨j.data.take 8⟩ : String) ++ ".md") ∧
    downloadAllFilename none = "audit-report.md" := by
  refine ⟨?_, ?_, rfl⟩
  · intro v
    refine ⟨rfl, ?_, ?_⟩
    · have h : (sanitizedTitlePart v).data =
          (v.title.data.take 30).map
            (fun c => if c.isAlpha || c.isDigit then c else '-') := rfl
      rw [h, List.length_map]
      exact (List.length_take_le 30 _)
    · intro c hc
      rcases List.mem_map.mp hc with ⟨a, _, rfl⟩
      by_cases ha : (a.isAlpha || a.isDigit) = true
      · left
        rw [if_pos ha]
        exact ha
      · right
        rw [if_neg ha]
  · intro j hj
    have hjf : (j == "") = false := by
      simp [hj]
    simp [downloadAllFilename, hjf]

/-- Witness for C9 amended at concrete inputs: a title with spaces and a
long job id produce the expected sanitized filenames. -/
theorem downloadFilenames_spec_witness :
    downloadVulnFilename
        ⟨"V-1", "Reentrancy in withdraw()", "high", none, none, [], none,
          none⟩ =
      "V-1-Reentrancy-in-withdraw--.md" ∧
    downloadAllFilename (some "0123456789abcdef") =
      "audit-report-01234567.md" := by
  constructor
  · rw [(downloadFilenames_spec.1 ⟨"V-1", "Reentrancy in withdraw()", "high",
      none, none, [], none, none⟩).1]
    decide
  · rw [downloadFilenames_spec.2.1 "0123456789abcdef" (by decide)]
    decide

/-- Claim C4: submitting in repository mode with a URL that fails the
validator issues no network call and adds no history entry (the guard at
page.tsx line 111 returns before the try block), and the submit gate
`canSubmit` is false for such a draft whatever the auth flags. -/
theorem invalidUrl_submit_noop {α : Type} (isAuthorized : Bool)
    (backend : Except String String) (now cap : Nat)
    (label : Option String) (key model : String) (prevError : Option String)
    (s : UploadState α) (jobs : List RecentJob)
    (hmode : s.mode = UploadMode.github)
    (hurl : isValidGitHubUrl s.githubUrl = false) :
    (handleSubmit isAuthorized backend now cap label key model prevError
        s jobs).calls = [] ∧
    (handleSubmit isAuthorized backend now cap label key model prevError
        s jobs).jobs = jobs ∧
    ∀ isSubmitting isAuthLoading : Bool,
      canSubmit isSubmitting isAuthLoading isAuthorized s = false := by
  refine ⟨?_, ?_, ?_⟩
  · cases isAuthorized <;> simp [handleSubmit, hmode, hurl]
  · cases isAuthorized <;> simp [handleSubmit, hmode, hurl]
  · intro a b
    cases a <;> cases b <;> cases isAuthorized <;>
      simp [canSubmit, hmode, hurl]

/-- Witness for C4 at the concrete draft of the spec example: repository
mode with `ftp://github.com/a/b` issues no call and leaves the history
empty. -/
theorem invalidUrl_submit_noop_witness :
    (handleSubmit (α := Unit) true (Except.ok "j1") 0 50 none "" "m" none
        ⟨UploadMode.github, none, none, "ftp://github.com/a/b", false⟩
        []).calls = [] ∧
    (handleSubmit (α := Unit) true (Except.ok "j1") 0 50 none "" "m" none
        ⟨UploadMode.github, none, none, "ftp://github.com/a/b", false⟩
        []).jobs = [] := by
  have h := invalidUrl_submit_noop (α := Unit) true (Except.ok "j1") 0 50
    none "" "m" none
    ⟨UploadMode.github, none, none, "ftp://github.com/a/b", false⟩ []
    rfl (by decide)
  exact ⟨h.1, h.2.1⟩

/-- Claim C5: when the submission call fails, exactly the failure message
is surfaced as the single `submitError`, the draft state is preserved
unchanged so the user can retry, no history entry is added, and no
navigation happens; a record is added only in the success branch, after
the backend confirms a job id. -/
theorem submitFailure_preserves_draft {α : Type}
    (msg : String) (now cap : Nat) (label : Option String)
    (key model : String) (prevError : Option String)
    (s : UploadState α) (jobs : List RecentJob)
    (helig : (s.mode = UploadMode.files ∧ ∃ f fs, s.files = some (f :: fs)) ∨
      (s.mode = UploadMode.github ∧ isValidGitHubUrl s.githubUrl = true)) :
    (handleSubmit true (Except.error msg) now cap label key model prevError
        s jobs).submitError = some msg ∧
    (handleSubmit true (Except.error msg) now cap label key model prevError
        s jobs).state = s ∧
    (handleSubmit true (Except.error msg) now cap label key model prevError
        s jobs).jobs = jobs ∧
    (handleSubmit true (Except.error msg) now cap label key model prevError
        s jobs).navigatedTo = none := by
  rcases helig with ⟨hmode, f, fs, hfiles⟩ | ⟨hmode, hurl⟩
  · simp [handleSubmit, hmode, hfiles]
  · simp [handleSubmit, hmode, hurl]

/-- Witness for C5 at a concrete draft: a failing backend call in
repository mode surfaces the message and leaves draft and history
untouched. -/
theorem submitFailure_preserves_draft_witness :
    (handleSubmit (α := Unit) true (Except.error "boom") 7 50 (some "vault")
        "k" "m" none
        ⟨UploadMode.github, none, none, "https://github.com/acme/vault",
          false⟩
        [⟨"old", "lbl", 0, UploadMode.files⟩]).submitError = some "boom" ∧
    (handleSubmit (α := Unit) true (Except.error "boom") 7 50 (some "vault")
        "k" "m" none
        ⟨UploadMode.github, none, none, "https://github.com/acme/vault",
          false⟩
        [⟨"old", "lbl", 0, UploadMode.files⟩]).state =
      ⟨UploadMode.github, none, none, "https://github.com/acme/vault",
        false⟩ ∧
    (handleSubmit (α := Unit) true (Except.error "boom") 7 50 (some "vault")
        "k" "m" none
        ⟨UploadMode.github, none, none, "https://github.com/acme/vault",
          false⟩
        [⟨"old", "lbl", 0, UploadMode.files⟩]).jobs =
      [⟨"old", "lbl", 0, UploadMode.files⟩] := by
  have h := submitFailure_preserves_draft (α := Unit) "boom" 7 50
    (some "vault") "k" "m" none
    ⟨UploadMode.github, none, none, "https://github.com/acme/vault", false⟩
    [⟨"old", "lbl", 0, UploadMode.files⟩]
    (Or.inr ⟨rfl, by decide⟩)
  exact ⟨h.1, h.2.1, h.2.2.1⟩

/-- Counterexample to claim C1: after a successful repository-mode
submission the handler of page.tsx never calls `clearUpload`; the draft
keeps its `githubUrl` (and every other field except `fromGitHub`), so the
draft is not reset to its empty state. -/
theorem submitSuccess_does_not_clear :
    (handleSubmit (α := Unit) true (Except.ok "job-1") 0 50 (some "vault")
        "" "m" none
        ⟨UploadMode.github, none, none, "https://github.com/acme/vault",
          false⟩ []).state.githubUrl = "https://github.com/acme/vault" ∧
    (handleSubmit (α := Unit) true (Except.ok "job-1") 0 50 (some "vault")
        "" "m" none
        ⟨UploadMode.github, none, none, "https://github.com/acme/vault",
          false⟩ []).state ≠
      clearUpload
        ⟨UploadMode.github, none, none, "https://github.com/acme/vault",
          false⟩ := by
  refine ⟨by decide, by decide⟩

/-- Claim C1 amended: when the submission call resolves successfully, the
resulting JobRecord (confirmed job id, selected label, timestamp, mode) is
appended to the job history, the user is routed to the results view for
that job id, and the draft is NOT cleared: `files`, `packageName`,
`githubUrl` and `mode` keep their values, with only `fromGitHub` updated
(true in repository mode, false in files mode).  The history append does
happen on success, as the original ordering claim requires, but no
draft-clearing step follows it. -/
theorem submitSuccess_appends_keeps_draft {α : Type}
    (jobId : String) (now cap : Nat) (label : Option String)
    (key model : String) (prevError : Option String)
    (s : UploadState α) (jobs : List RecentJob)
    (helig : (s.mode = UploadMode.files ∧ ∃ f fs, s.files = some (f :: fs)) ∨
      (s.mode = UploadMode.github ∧ isValidGitHubUrl s.githubUrl = true)) :
    (handleSubmit true (Except.ok jobId) now cap label key model prevError
        s jobs).jobs =
      addRecentJob cap ⟨jobId, label.getD "files", now, s.mode⟩ jobs ∧
    (handleSubmit true (Except.ok jobId) now cap label key model prevError
        s jobs).state =
      setFromGitHub (s.mode == UploadMode.github) s ∧
    (handleSubmit true (Except.ok jobId) now cap label key model prevError
        s jobs).state.files = s.files ∧
    (handleSubmit true (Except.ok jobId) now cap label key model prevError
        s jobs).state.packageName = s.packageName ∧
    (handleSubmit true (Except.ok jobId) now cap label key model prevError
        s jobs).state.githubUrl = s.githubUrl ∧
    (handleSubmit true (Except.ok jobId) now cap label key model prevError
        s jobs).state.mode = s.mode ∧
    (handleSubmit true (Except.ok jobId) now cap label key model prevError
        s jobs).navigatedTo = some jobId := by
  rcases helig with ⟨hmode, f, fs, hfiles⟩ | ⟨hmode, hurl⟩
  · simp [handleSubmit, hmode, hfiles, setFromGitHub]
  · simp [handleSubmit, hmode, hurl, setFromGitHub]

/-- Witness for C1 amended at a concrete files-mode draft: the record is
appended and the selected files survive the successful submission. -/
theorem submitSuccess_appends_keeps_draft_witness :
    (handleSubmit (α := String) true (Except.ok "job-9") 3 50
        (some "token") "k" "m" none
        ⟨UploadMode.files, some ["Token.sol"], some "token", "", false⟩
        []).jobs =
      addRecentJob 50 ⟨"job-9", "token", 3, UploadMode.files⟩ [] ∧
    (handleSubmit (α := String) true (Except.ok "job-9") 3 50
        (some "token") "k" "m" none
        ⟨UploadMode.files, some ["Token.sol"], some "token", "", false⟩
        []).state.files = some ["Token.sol"] := by
  have h := submitSuccess_appends_keeps_draft (α := String) "job-9" 3 50
    (some "token") "k" "m" none
    ⟨UploadMode.files, some ["Token.sol"], some "token", "", false⟩ []
    (Or.inl ⟨rfl, "Token.sol", [], rfl⟩)
  exact ⟨h.1, h.2.2.1⟩

theorem mem_joinLines_infix (ls : List String) (l : String) (h : l ∈ ls) :
    l.data <:+: (joinLines ls).data := by
  induction ls with
  | nil => simp at h
  | cons a ls ih =>
    cases ls with
    | nil =>
      rcases List.mem_cons.mp h with h | h
      · subst h
        exact List.infix_rfl
      · simp at h
    | cons b ls2 =>
      rw [show joinLines (a :: b :: ls2) = a ++ "\n" ++ joinLines (b :: ls2)
        from rfl]
      rcases List.mem_cons.mp h with h | h
      · subst h
        refine List.IsPrefix.isInfix ⟨("\n" ++ joinLines (b :: ls2)).data, ?_⟩
        simp
      · refine (ih h).trans (List.IsSuffix.isInfix ⟨(a ++ "\n").data, ?_⟩)
        simp

set_option maxRecDepth 4000 in
/-- Claim C7: for the concrete vulnerability of the spec example the
exported markdown contains the literal heading `## V-1: Reentrancy`, the
literal line `**Severity:** HIGH`, and the literal line
`**File:** \x60A.sol\x60 (lines 10-20)`; in general every export contains
the id/title heading, the uppercased severity line, and one file line per
location, and the per-location line groups appear as the in-order
concatenation of the location blocks. -/
theorem vulnerabilityToMarkdown_spec :
    ("## V-1: Reentrancy".data <:+:
        (vulnerabilityToMarkdown ⟨"V-1", "Reentrancy", "high", some "...",
          none, [⟨"A.sol", 10, 20, "..."⟩], none, none⟩).data ∧
      "**Severity:** HIGH".data <:+:
        (vulnerabilityToMarkdown ⟨"V-1", "Reentrancy", "high", some "...",
          none, [⟨"A.sol", 10, 20, "..."⟩], none, none⟩).data ∧
      "**File:** `A.sol` (lines 10-20)".data <:+:
        (vulnerabilityToMarkdown ⟨"V-1", "Reentrancy", "high", some "...",
          none, [⟨"A.sol", 10, 20, "..."⟩], none, none⟩).data) ∧
    (∀ v : Vulnerability,
      ("## " ++ v.id ++ ": " ++ v.title).data <:+:
        (vulnerabilityToMarkdown v).data ∧
      ("**Severity:** " ++ jsToUpper v.severity).data <:+:
        (vulnerabilityToMarkdown v).data ∧
      ∀ loc ∈ v.description,
        (fileLine loc).data <:+: (vulnerabilityToMarkdown v).data) ∧
    (∀ v : Vulnerability, ∃ pre post : List String,
      vulnLines v = pre ++ (v.description.map locLines).flatten ++ post) := by
  refine ⟨⟨by decide, by decide, by decide⟩, ?_, ?_⟩
  · intro v
    refine ⟨?_, ?_, ?_⟩
    · refine mem_joinLines_infix _ _ ?_
      simp [vulnLines]
    · refine mem_joinLines_infix _ _ ?_
      simp [vulnLines]
    · intro loc hloc
      refine mem_joinLines_infix _ _ ?_
      have hlen : v.description.length > 0 :=
        List.length_pos.mpr (List.ne_nil_of_mem hloc)
      have hmem : fileLine loc ∈ (v.description.map locLines).flatten := by
        refine List.mem_flatten.mpr ⟨locLines loc, List.mem_map_of_mem _ hloc, ?_⟩
        simp [locLines]
      simp [vulnLines, hlen, hmem]
  · intro v
    by_cases hd : v.description.length > 0
    · refine ⟨["## " ++ v.id ++ ": " ++ v.title, "",
        "**Severity:** " ++ jsToUpper v.severity, ""]
        ++ optSection "### Summary" v.summary
        ++ optSection "### Impact" v.impact ++ ["### Description"],
        [""] ++ optSection "### Proof of Concept" v.proof_of_concept
        ++ optSection "### Remediation" v.remediation, ?_⟩
      simp [vulnLines, hd]
    · have hnil : v.description = [] := by
        simpa using hd
      refine ⟨vulnLines v, [], ?_⟩
      simp [hnil]

/-- Witness for C7 at the concrete location of the spec example: the file
line of the single location is an infix of the export. -/
theorem vulnerabilityToMarkdown_spec_witness :
    (fileLine ⟨"A.sol", 10, 20, "..."⟩).data <:+:
      (vulnerabilityToMarkdown ⟨"V-1", "Reentrancy", "high", some "...",
        none, [⟨"A.sol", 10, 20, "..."⟩], none, none⟩).data :=
  (vulnerabilityToMarkdown_spec.2.1 ⟨"V-1", "Reentrancy", "high",
    some "...", none, [⟨"A.sol", 10, 20, "..."⟩], none, none⟩).2.2
    ⟨"A.sol", 10, 20, "..."⟩ (by decide)

/-- Claim C8: the aggregate export on the empty vulnerability list
contains the literal line `**Total Vulnerabilities:** 0` for every job id,
and contains no per-vulnerability sections: the whole document is exactly
the header lines (the flattened section list is empty), spelled out as
concrete strings for a present and an absent job id. -/
theorem generateAll_empty_spec :
    (∀ jobId : Option String,
      "**Total Vulnerabilities:** 0".data <:+:
        (generateAllVulnerabilitiesMarkdown [] jobId).data) ∧
    (∀ jobId : Option String,
      generateAllVulnerabilitiesMarkdown [] jobId =
        joinLines (reportHeaderLines [] jobId)) ∧
    generateAllVulnerabilitiesMarkdown [] (some "job-1") =
      "# Security Audit Report\n\n**Job ID:** job-1\n\n**Total Vulnerabilities:** 0\n\n### Summary by Severity\n\n\n---\n" ∧
    generateAllVulnerabilitiesMarkdown [] none =
      "# Security Audit Report\n\n**Total Vulnerabilities:** 0\n\n### Summary by Severity\n\n\n---\n" := by
  refine ⟨?_, ?_, by decide, by decide⟩
  · intro jobId
    rcases jobId with _ | j
    · decide
    · by_cases hj : (j == "") = true
      · have hjj : j = "" := by simpa using hj
        subst hjj
        decide
      · have hjf : (j == "") = false := by simpa using hj
        refine mem_joinLines_infix _ _ ?_
        have ht : "**Total Vulnerabilities:** " ++ toString (0 : Nat) =
            "**Total Vulnerabilities:** 0" := rfl
        have hdr : reportHeaderLines ([] : List Vulnerability) (some j) =
            ["# Security Audit Report", "", "**Job ID:** " ++ j, "",
              "**Total Vulnerabilities:** 0", "", "### Summary by Severity",
              "", "", "---", ""] := by
          simp [reportHeaderLines, severityTally, hjf, ht]
        rw [hdr]
        refine List.mem_append.mpr (Or.inl ?_)
        refine List.mem_cons.mpr (Or.inr ?_)
        refine List.mem_cons.mpr (Or.inr ?_)
        refine List.mem_cons.mpr (Or.inr ?_)
        refine List.mem_cons.mpr (Or.inr ?_)
        exact List.mem_cons_self _ _
  · intro jobId
    unfold generateAllVulnerabilitiesMarkdown
    rw [show ((List.map (fun v => [vulnerabilityToMarkdown v, "---", ""])
      ([] : List Vulnerability)).flatten) = [] from rfl, List.append_nil]

end EvmBench
